import Mathlib

/-! # go-client: a shallow embedding of `client.go`

The file embeds `Client.Do` and its five verb helpers (`Get`, `Post`, `Put`,
`Patch`, `Delete`) of `client.go`, and proves the properties of the request
they build, of the way they treat the response and of the order in which they
touch the transport and the response body.

The Go standard library and `gjson` are outside the repository.  What `Do`
needs from them is either modelled directly when it is a matter of data
(`http.Header.Add`, `http.NewRequest`, `io.ReadAll`, `errors.New`) or taken as
a field of `Deps` when it is a computation the client does not look into
(`json.Marshal`, the checks of `http.NewRequest`, the transport behind
`c.HttpClient.Do`, `gjson.ParseBytes`).

Effects are recorded in a log of `Event`s: every call of the transport, every
`io.ReadAll` and every `Close` appends one event, so that "the transport is not
invoked", "the body is not read" and "the body is closed once" are statements
about the log of a call.
-/

namespace GoClient

/-! ## Data -/

/-- A Go `[]byte`. -/
abbrev Bytes := List UInt8

/-- A Go `error` value that is not nil.  `errorString s` is the value
`errors.New(s)`; `foreign pkg msg` is an error made by a library (`pkg` names
it), with message `msg`. -/
inductive GoError where
  | errorString (s : String)
  | foreign (pkg : String) (msg : String)
  deriving DecidableEq, Repr

/-- The function `errors.New`. -/
def errorsNew (text : String) : GoError := .errorString text

/-- Is `c` a byte that may occur in a header field name (an RFC 7230 token
character)?  This is `validHeaderFieldByte` of `net/textproto`. -/
def validHeaderFieldByte (c : Char) : Bool :=
  c.isAlphanum || [33, 35, 36, 37, 38, 39, 42, 43, 45, 46, 94, 95, 96, 124, 126].contains c.toNat

/-- The letter-case pass of `canonicalMIMEHeaderKey`: the first letter and
every letter after a hyphen in upper case, the others in lower case. -/
def canonicalLetters : Bool → List Char → List Char
  | _, [] => []
  | upper, c :: cs =>
    let c1 := if upper then c.toUpper else c.toLower
    c1 :: canonicalLetters (c1 == '-') cs

/-- The function `textproto.CanonicalMIMEHeaderKey`: a key holding a byte that
is not a token character is returned unchanged, any other key is put in
canonical letter case. -/
def CanonicalMIMEHeaderKey (s : String) : String :=
  if s.data.all validHeaderFieldByte then String.mk (canonicalLetters true s.data) else s

/-- A Go `http.Header` (a `map[string][]string`), kept as the list of
(stored key, value) pairs in the order in which the values were added.  The
value list of a key is the sublist of the pairs with that key. -/
structure Header where
  entries : List (String × String)
  deriving DecidableEq, Repr

/-- The map index `h[key]`: the values stored under exactly `key`. -/
def Header.index (h : Header) (key : String) : List String :=
  (h.entries.filter (fun kv => kv.1 = key)).map Prod.snd

/-- The method `Header.Add`: the value is appended to the values stored under
the canonical form of `key`. -/
def Header.Add (h : Header) (key value : String) : Header :=
  ⟨h.entries ++ [(CanonicalMIMEHeaderKey key, value)]⟩

/-- The method `Header.Values`: all values associated with `key`, looked up
under its canonical form. -/
def Header.Values (h : Header) (key : String) : List String :=
  h.index (CanonicalMIMEHeaderKey key)

/-- The method `Header.Get`: the first value associated with `key`, or `""`. -/
def Header.Get (h : Header) (key : String) : String :=
  (h.Values key).headD ""

/-- The part of an `http.Request` that `Do` sets: `Body` is `none` for a
request without body, and the bytes of the `bytes.Reader` otherwise. -/
structure Request where
  Method : String
  URL : String
  Header : Header
  Body : Option Bytes
  deriving DecidableEq, Repr

/-- A response body, an `io.ReadCloser`: reading it delivers `data` and then
ends, with `io.EOF` when `fail` is `none` and with the error `fail` otherwise
(the reader `ErrReader` of the tests is `⟨[], some (errors.New "fail")⟩`). -/
structure ReadCloser where
  data : Bytes
  fail : Option GoError
  deriving DecidableEq, Repr

/-- The part of an `http.Response` that `Do` uses. -/
structure Response where
  StatusCode : Int
  Status : String
  Body : ReadCloser
  deriving DecidableEq, Repr

/-- The struct `Client`; the field `HttpClient` is the transport of `Deps`. -/
structure Client where
  BaseURL : String
  Token : String
  deriving DecidableEq, Repr

/-- What a call does to the outside world, in order. -/
inductive Event where
  /-- The call `c.HttpClient.Do(req)`. -/
  | roundTrip (req : Request)
  /-- The call `io.ReadAll(b)`. -/
  | readAll (b : ReadCloser)
  /-- The call `b.Close()`. -/
  | close (b : ReadCloser)
  deriving DecidableEq, Repr

/-- The libraries and the network behind a client.  `β` is the type of the
non-nil values a caller passes as `body` (a Go interface value is an `Option β`,
`none` being `nil`), `R` is `gjson.Result`. -/
structure Deps (β R : Type) where
  /-- The function `json.Marshal`, defined on every interface value, `nil` included. -/
  Marshal : Option β → Except GoError Bytes
  /-- The error `http.NewRequest` reports for this method and URL (an invalid
  method, a URL that does not parse), `none` when it accepts them. -/
  requestError : String → String → Option GoError
  /-- The answer of `c.HttpClient.Do` to a request. -/
  transport : Request → Except GoError Response
  /-- The function `gjson.ParseBytes`. -/
  ParseBytes : Bytes → R
  /-- The zero value `gjson.Result{}`. -/
  zero : R

/-- The two values a call returns, and what it did. -/
structure Outcome (R : Type) where
  result : R
  err : Option GoError
  log : List Event

/-! ## Library operations -/

/-- The function `http.NewRequest`: an empty method means `GET`; the method and
the URL are checked; the new request has an empty header and the given body. -/
def NewRequest {β R : Type} (d : Deps β R) (method url : String) (body : Option Bytes) :
    Except GoError Request :=
  let method := if method = "" then "GET" else method
  match d.requestError method url with
  | some err => .error err
  | none => .ok { Method := method, URL := url, Header := ⟨[]⟩, Body := body }

/-- The call `c.HttpClient.Do(req)`: the transport answers, and the call is
logged. -/
def HttpClientDo {β R : Type} (d : Deps β R) (req : Request) (log : List Event) :
    Except GoError Response × List Event :=
  (d.transport req, log ++ [Event.roundTrip req])

/-- The function `io.ReadAll`: the bytes read until the reader ended, and the
error it ended with unless that was `io.EOF`. -/
def ReadAll (b : ReadCloser) (log : List Event) : (Bytes × Option GoError) × List Event :=
  ((b.data, b.fail), log ++ [Event.readAll b])

/-- The method `Close` of a response body. -/
def Close (b : ReadCloser) (log : List Event) : List Event :=
  log ++ [Event.close b]

/-! ## The client -/

/-- The function `NewClient`. -/
def NewClient (baseURL token : String) : Client × Option GoError :=
  ({ BaseURL := baseURL, Token := token }, none)

/-- The method `Client.Do`.  `headers` is the Go map `headers` given as the
sequence of its entries in the order in which `range` visits them in this call
(a nil map is the empty sequence). -/
def Client.Do {β R : Type} (d : Deps β R) (c : Client) (method path : String)
    (body : Option β) (headers : List (String × String)) : Outcome R :=
  let url := c.BaseURL ++ path
  -- var bodyReader io.Reader; if body != nil { b, err := json.Marshal(body) ... }
  let marshalled : Except GoError (Option Bytes) :=
    match body with
    | none => .ok none
    | some v =>
      match d.Marshal (some v) with
      | .error err => .error err
      | .ok b => .ok (some b)
  match marshalled with
  | .error err => ⟨d.zero, some err, []⟩
  | .ok bodyReader =>
    match NewRequest d method url bodyReader with
    | .error err => ⟨d.zero, some err, []⟩
    | .ok req =>
      -- Add Bearer token to headers
      let req : Request :=
        if c.Token ≠ "" then
          { req with Header := req.Header.Add "Authorization" ("Bearer " ++ c.Token) }
        else req
      let req : Request :=
        headers.foldl (fun r kv => { r with Header := r.Header.Add kv.1 kv.2 }) req
      match HttpClientDo d req [] with
      | (.error err, log) => ⟨d.zero, some err, log⟩
      | (.ok resp, log) =>
        -- defer resp.Body.Close(): the rest of the body runs, then the body is closed
        let rest : Outcome R :=
          if resp.StatusCode ≥ 400 then
            ⟨d.zero, some (errorsNew ("request failed with status: " ++ resp.Status)), log⟩
          else
            match ReadAll resp.Body log with
            | ((_, some err), log) => ⟨d.zero, some err, log⟩
            | ((bodyBytes, none), log) => ⟨d.ParseBytes bodyBytes, none, log⟩
        { rest with log := Close resp.Body rest.log }

/-- The method `Client.Post`. -/
def Client.Post {β R : Type} (d : Deps β R) (c : Client) (path : String) (body : Option β) :
    Outcome R :=
  c.Do d "POST" path body [("Content-Type", "application/json")]

/-- The method `Client.Get`. -/
def Client.Get {β R : Type} (d : Deps β R) (c : Client) (path : String) : Outcome R :=
  c.Do d "GET" path none []

/-- The method `Client.Put`. -/
def Client.Put {β R : Type} (d : Deps β R) (c : Client) (path : String) (body : Option β) :
    Outcome R :=
  c.Do d "PUT" path body [("Content-Type", "application/json")]

/-- The method `Client.Patch`. -/
def Client.Patch {β R : Type} (d : Deps β R) (c : Client) (path : String) (body : Option β) :
    Outcome R :=
  c.Do d "PATCH" path body [("Content-Type", "application/json")]

/-- The method `Client.Delete`. -/
def Client.Delete {β R : Type} (d : Deps β R) (c : Client) (path : String) : Outcome R :=
  c.Do d "DELETE" path none []

/-! ## The two halves of `Do`

`Do` first builds a request (up to the loop over `headers`) and then, if that
succeeded, hands it to the transport and treats the answer.  The two halves are
named here so that the theorems can speak of them; `Do_eq` ties them to `Do`. -/

/-- The header entries `Do` puts on a request, in the order it adds them. -/
def sentEntries (c : Client) (headers : List (String × String)) : List (String × String) :=
  (if c.Token ≠ "" then [(CanonicalMIMEHeaderKey "Authorization", "Bearer " ++ c.Token)] else [])
    ++ headers.map (fun kv => (CanonicalMIMEHeaderKey kv.1, kv.2))

/-- The request `Do` builds, or the error that stops it before the transport is
called. -/
def Client.prepare {β R : Type} (d : Deps β R) (c : Client) (method path : String)
    (body : Option β) (headers : List (String × String)) : Except GoError Request :=
  match body with
  | none =>
    match d.requestError (if method = "" then "GET" else method) (c.BaseURL ++ path) with
    | some err => .error err
    | none =>
      .ok { Method := if method = "" then "GET" else method, URL := c.BaseURL ++ path,
            Header := ⟨sentEntries c headers⟩, Body := none }
  | some v =>
    match d.Marshal (some v) with
    | .error err => .error err
    | .ok b =>
      match d.requestError (if method = "" then "GET" else method) (c.BaseURL ++ path) with
      | some err => .error err
      | none =>
        .ok { Method := if method = "" then "GET" else method, URL := c.BaseURL ++ path,
              Header := ⟨sentEntries c headers⟩, Body := some b }

/-- What `Do` does with a request once it is built. -/
def exchange {β R : Type} (d : Deps β R) (req : Request) : Outcome R :=
  match d.transport req with
  | .error err => ⟨d.zero, some err, [Event.roundTrip req]⟩
  | .ok resp =>
    if resp.StatusCode ≥ 400 then
      ⟨d.zero, some (errorsNew ("request failed with status: " ++ resp.Status)),
        [Event.roundTrip req, Event.close resp.Body]⟩
    else
      match resp.Body.fail with
      | some err =>
        ⟨d.zero, some err, [Event.roundTrip req, Event.readAll resp.Body, Event.close resp.Body]⟩
      | none =>
        ⟨d.ParseBytes resp.Body.data, none,
          [Event.roundTrip req, Event.readAll resp.Body, Event.close resp.Body]⟩

/-! ## A test double

The tests of the repository replace the transport by a mock that answers every
request in a fixed way.  `mockDeps` is such a double, with a small set of Go
values as bodies; it serves to run the client on concrete inputs. -/

/-- Some Go values a caller can pass as `body`: booleans, and a channel, which
`json.Marshal` rejects. -/
inductive GoValue where
  | bool (b : Bool)
  | chan
  deriving DecidableEq, Repr

/-- What `json.Marshal` gives on `nil` and on a `GoValue`: the texts `null`,
`true` and `false`, and an error for a channel. -/
def jsonMarshal : Option GoValue → Except GoError Bytes
  | none => .ok [110, 117, 108, 108]
  | some (.bool true) => .ok [116, 114, 117, 101]
  | some (.bool false) => .ok [102, 97, 108, 115, 101]
  | some .chan => .error (.foreign "json" "json: unsupported type: chan int")

/-- The checks of `http.NewRequest` in the double: the method is a token, the
URL holds no control character. -/
def mockRequestError (method url : String) : Option GoError :=
  if !(method.data.all validHeaderFieldByte) || method.data.isEmpty then
    some (.foreign "net/http" "net/http: invalid method")
  else if url.data.any (fun ch => ch.toNat < 32 || ch.toNat = 127) then
    some (.foreign "net/url" "net/url: invalid control character in URL")
  else none

/-- The double: the transport gives `reply` to every request, and a result is
the text it was parsed from. -/
def mockDeps (reply : Except GoError Response) : Deps GoValue Bytes :=
  { Marshal := jsonMarshal
    requestError := mockRequestError
    transport := fun _ => reply
    ParseBytes := fun b => b
    zero := [] }

/-- The client of the tests. -/
def testClient : Client := (NewClient "https://10.0.0.1" "test_token").1

/-- The client of the tests without its token. -/
def anonClient : Client := (NewClient "https://10.0.0.1" "").1

/-- The answer 200 with the body `{"a":1}`. -/
def okResponse : Response :=
  { StatusCode := 200, Status := "200 OK",
    Body := { data := [123, 34, 97, 34, 58, 49, 125], fail := none } }

/-- The answer 200 whose body is the `ErrReader` of the tests. -/
def errReaderResponse : Response :=
  { StatusCode := 200, Status := "200 OK",
    Body := { data := [], fail := some (errorsNew "fail") } }

/-- The request `Get("/test")` of the test client sends. -/
def testGetRequest : Request :=
  { Method := "GET", URL := "https://10.0.0.1/test",
    Header := ⟨[("Authorization", "Bearer test_token")]⟩, Body := none }

/-- The request `Post("/test", true)` of the test client sends. -/
def testPostRequest : Request :=
  { Method := "POST", URL := "https://10.0.0.1/test",
    Header := ⟨[("Authorization", "Bearer test_token"), ("Content-Type", "application/json")]⟩,
    Body := some [116, 114, 117, 101] }

/-- Is the event a call of `Close`? -/
def Event.isClose : Event → Bool
  | .close _ => true
  | _ => false

/-- Is the event a call of the transport? -/
def Event.isRoundTrip : Event → Bool
  | .roundTrip _ => true
  | _ => false

/-! ## Lemmas -/

theorem foldl_add_headers (headers : List (String × String)) (req : Request) :
    headers.foldl (fun r kv => { r with Header := r.Header.Add kv.1 kv.2 }) req =
      { req with Header := ⟨req.Header.entries ++
          headers.map (fun kv => (CanonicalMIMEHeaderKey kv.1, kv.2))⟩ } := by
  induction headers generalizing req with
  | nil => simp
  | cons kv rest ih =>
    rw [List.foldl_cons, ih]
    simp [Header.Add, List.append_assoc]

theorem exchange_eq {β R : Type} (d : Deps β R) (req : Request) :
    (match HttpClientDo d req [] with
      | (.error err, log) => (⟨d.zero, some err, log⟩ : Outcome R)
      | (.ok resp, log) =>
        let rest : Outcome R :=
          if resp.StatusCode ≥ 400 then
            ⟨d.zero, some (errorsNew ("request failed with status: " ++ resp.Status)), log⟩
          else
            match ReadAll resp.Body log with
            | ((_, some err), log) => ⟨d.zero, some err, log⟩
            | ((bodyBytes, none), log) => ⟨d.ParseBytes bodyBytes, none, log⟩
        { rest with log := Close resp.Body rest.log }) = exchange d req := by
  unfold exchange HttpClientDo
  cases ht : d.transport req with
  | error err => simp
  | ok resp =>
    simp only [List.nil_append]
    by_cases hc : resp.StatusCode ≥ 400
    · simp [hc, Close]
    · simp only [hc, if_false, ReadAll]
      cases hf : resp.Body.fail with
      | some err => simp [Close]
      | none => simp [Close]

/-- The method `Do` is its two halves, one after the other. -/
theorem Do_eq {β R : Type} (d : Deps β R) (c : Client) (method path : String)
    (body : Option β) (headers : List (String × String)) :
    c.Do d method path body headers =
      match c.prepare d method path body headers with
      | .error err => ⟨d.zero, some err, []⟩
      | .ok req => exchange d req := by
  unfold Client.Do Client.prepare NewRequest
  simp only [exchange_eq, foldl_add_headers]
  cases body with
  | none =>
    simp only
    cases hr : d.requestError (if method = "" then "GET" else method) (c.BaseURL ++ path) with
    | some err => simp
    | none =>
      simp only [sentEntries]
      by_cases ht : c.Token = "" <;> simp [ht, Header.Add]
  | some v =>
    simp only
    cases hm : d.Marshal (some v) with
    | error err => simp
    | ok b =>
      simp only
      cases hr : d.requestError (if method = "" then "GET" else method) (c.BaseURL ++ path) with
      | some err => simp
      | none =>
        simp only [sentEntries]
        by_cases ht : c.Token = "" <;> simp [ht, Header.Add]

theorem exchange_sent {β R : Type} (d : Deps β R) (r req : Request) :
    Event.roundTrip req ∈ (exchange d r).log ↔ req = r := by
  unfold exchange
  cases d.transport r with
  | error err => simp
  | ok resp =>
    by_cases hc : resp.StatusCode ≥ 400
    · simp [hc]
    · cases hf : resp.Body.fail <;> simp [hc, hf]

/-- A request is in the log of a call exactly when it is the request the call
built. -/
theorem sent_iff {β R : Type} (d : Deps β R) (c : Client) (method path : String)
    (body : Option β) (headers : List (String × String)) (req : Request) :
    Event.roundTrip req ∈ (c.Do d method path body headers).log ↔
      c.prepare d method path body headers = .ok req := by
  rw [Do_eq]
  cases hp : c.prepare d method path body headers with
  | error err => simp
  | ok r =>
    simp only [exchange_sent]
    constructor
    · intro h; rw [h]
    · intro h; injection h with h; exact h.symm

/-- A call that sent a request is the exchange of that request. -/
theorem Do_of_sent {β R : Type} (d : Deps β R) (c : Client) (method path : String)
    (body : Option β) (headers : List (String × String)) (req : Request)
    (hsent : Event.roundTrip req ∈ (c.Do d method path body headers).log) :
    c.Do d method path body headers = exchange d req := by
  rw [sent_iff] at hsent
  rw [Do_eq, hsent]

/-- The request a call built: its method, URL, header entries and body. -/
theorem prepare_ok {β R : Type} (d : Deps β R) (c : Client) (method path : String)
    (body : Option β) (headers : List (String × String)) (req : Request)
    (h : c.prepare d method path body headers = .ok req) :
    req.Method = (if method = "" then "GET" else method) ∧
    req.URL = c.BaseURL ++ path ∧
    req.Header.entries = sentEntries c headers ∧
    (body = none → req.Body = none) ∧
    (∀ v b, body = some v → d.Marshal (some v) = .ok b → req.Body = some b) := by
  unfold Client.prepare at h
  cases body with
  | none =>
    simp only at h
    cases hr : d.requestError (if method = "" then "GET" else method) (c.BaseURL ++ path) with
    | some err => rw [hr] at h; cases h
    | none =>
      rw [hr] at h
      injection h with h
      subst h
      simp
  | some v =>
    simp only at h
    cases hm : d.Marshal (some v) with
    | error err => rw [hm] at h; cases h
    | ok b =>
      rw [hm] at h
      simp only at h
      cases hr : d.requestError (if method = "" then "GET" else method) (c.BaseURL ++ path) with
      | some err => rw [hr] at h; cases h
      | none =>
        rw [hr] at h
        injection h with h
        subst h
        refine ⟨rfl, rfl, rfl, by simp, ?_⟩
        intro v1 b1 hv hb
        injection hv with hv
        subst hv
        rw [hm] at hb
        injection hb with hb
        rw [hb]

/-- The values a sent request has under a key: the bearer value if the key is
`Authorization` and there is a token, then the caller's values for the key. -/
theorem sentEntries_values (c : Client) (headers : List (String × String)) (key : String) :
    (Header.mk (sentEntries c headers)).Values key =
      (if c.Token ≠ "" ∧ CanonicalMIMEHeaderKey "Authorization" = CanonicalMIMEHeaderKey key
        then ["Bearer " ++ c.Token] else []) ++
      (headers.filter (fun kv => CanonicalMIMEHeaderKey kv.1 = CanonicalMIMEHeaderKey key)).map
        Prod.snd := by
  unfold Header.Values Header.index sentEntries
  simp only [List.filter_append, List.map_append, List.filter_map, List.map_map]
  congr 1
  · by_cases ht : c.Token = ""
    · simp [ht]
    · by_cases hk : CanonicalMIMEHeaderKey "Authorization" = CanonicalMIMEHeaderKey key
      · simp [ht, hk, List.filter]
      · simp [ht, hk, List.filter]

/-- A call without body builds a request exactly when `http.NewRequest`
accepts the method and the URL, and then it is this request. -/
theorem prepare_none_iff {β R : Type} (d : Deps β R) (c : Client) (method path : String)
    (headers : List (String × String)) (req : Request) (hne : method ≠ "") :
    c.prepare d method path none headers = .ok req ↔
      d.requestError method (c.BaseURL ++ path) = none ∧
      req = { Method := method, URL := c.BaseURL ++ path,
              Header := ⟨sentEntries c headers⟩, Body := none } := by
  unfold Client.prepare
  simp only [hne, if_false]
  cases hr : d.requestError method (c.BaseURL ++ path) with
  | some err => simp
  | none =>
    simp only [true_and]
    constructor
    · intro h; injection h with h; exact h.symm
    · intro h; rw [h]

/-- A call with a body that `json.Marshal` encodes to `b` builds a request
exactly when `http.NewRequest` accepts the method and the URL, and then it is
this request. -/
theorem prepare_some_iff {β R : Type} (d : Deps β R) (c : Client) (method path : String)
    (v : β) (b : Bytes) (headers : List (String × String)) (req : Request) (hne : method ≠ "")
    (hm : d.Marshal (some v) = .ok b) :
    c.prepare d method path (some v) headers = .ok req ↔
      d.requestError method (c.BaseURL ++ path) = none ∧
      req = { Method := method, URL := c.BaseURL ++ path,
              Header := ⟨sentEntries c headers⟩, Body := some b } := by
  unfold Client.prepare
  simp only [hne, if_false, hm]
  cases hr : d.requestError method (c.BaseURL ++ path) with
  | some err => simp
  | none =>
    simp only [true_and]
    constructor
    · intro h; injection h with h; exact h.symm
    · intro h; rw [h]

theorem canonical_authorization : CanonicalMIMEHeaderKey "Authorization" = "Authorization" := by
  decide

theorem canonical_content_type : CanonicalMIMEHeaderKey "Content-Type" = "Content-Type" := by
  decide

/-- The header entries of a call without caller headers. -/
theorem sentEntries_nil (c : Client) :
    sentEntries c [] =
      (if c.Token ≠ "" then [("Authorization", "Bearer " ++ c.Token)] else []) := by
  unfold sentEntries
  by_cases ht : c.Token = "" <;> simp [ht, canonical_authorization]

/-- The header entries of a call of `Post`, `Put` or `Patch`. -/
theorem sentEntries_json (c : Client) :
    sentEntries c [("Content-Type", "application/json")] =
      (if c.Token ≠ "" then [("Authorization", "Bearer " ++ c.Token)] else []) ++
        [("Content-Type", "application/json")] := by
  unfold sentEntries
  by_cases ht : c.Token = "" <;> simp [ht, canonical_authorization, canonical_content_type]

/-! ## The response -/

/-- C2: when a call to `Do` got as far as sending a request (encoding and
construction succeeded), the transport answered it with a status code from 200
to 399, and `io.ReadAll` gave the bytes of the body without error, the call
returns no error and the parse of exactly those bytes. -/
theorem Do_success {β R : Type} (d : Deps β R) (c : Client) (method path : String)
    (body : Option β) (headers : List (String × String)) (req : Request) (resp : Response)
    (bodyBytes : Bytes)
    (hsent : Event.roundTrip req ∈ (c.Do d method path body headers).log)
    (hresp : d.transport req = .ok resp)
    (hlo : 200 ≤ resp.StatusCode) (hhi : resp.StatusCode ≤ 399)
    (hread : (ReadAll resp.Body []).1 = (bodyBytes, none)) :
    (c.Do d method path body headers).err = none ∧
    (c.Do d method path body headers).result = d.ParseBytes bodyBytes := by
  have hnot : ¬ resp.StatusCode ≥ 400 := by omega
  simp only [ReadAll, Prod.mk.injEq] at hread
  obtain ⟨hdata, hfail⟩ := hread
  rw [Do_of_sent d c method path body headers req hsent]
  unfold exchange
  rw [hresp]
  simp [hnot, hfail, hdata]

/-- C6: when the body of a call to `Do` is not nil and `json.Marshal` fails on
it, the call returns that error and the zero result, and its log is empty: the
transport is not called. -/
theorem Do_marshal_error {β R : Type} (d : Deps β R) (c : Client) (method path : String)
    (v : β) (headers : List (String × String)) (err : GoError)
    (hm : d.Marshal (some v) = .error err) :
    (c.Do d method path (some v) headers).err = some err ∧
    (c.Do d method path (some v) headers).result = d.zero ∧
    (c.Do d method path (some v) headers).log = [] ∧
    (∀ req, Event.roundTrip req ∉ (c.Do d method path (some v) headers).log) := by
  have hp : c.prepare d method path (some v) headers = .error err := by
    unfold Client.prepare
    simp [hm]
  have hD : c.Do d method path (some v) headers = ⟨d.zero, some err, []⟩ := by
    rw [Do_eq, hp]
  rw [hD]
  simp

/-- C7: when the transport fails on the request of a call to `Do`, the call
returns the error of the transport and the zero result, and its log is that
one transport call: nothing is read, nothing is sent a second time. -/
theorem Do_transport_error {β R : Type} (d : Deps β R) (c : Client) (method path : String)
    (body : Option β) (headers : List (String × String)) (req : Request) (err : GoError)
    (hsent : Event.roundTrip req ∈ (c.Do d method path body headers).log)
    (hfail : d.transport req = .error err) :
    (c.Do d method path body headers).err = some err ∧
    (c.Do d method path body headers).result = d.zero ∧
    (c.Do d method path body headers).log = [Event.roundTrip req] ∧
    ((c.Do d method path body headers).log.filter Event.isRoundTrip).length = 1 ∧
    (∀ b, Event.readAll b ∉ (c.Do d method path body headers).log) := by
  have hD : c.Do d method path body headers = ⟨d.zero, some err, [Event.roundTrip req]⟩ := by
    rw [Do_of_sent d c method path body headers req hsent]
    unfold exchange
    rw [hfail]
  rw [hD]
  simp [Event.isRoundTrip]

/-- C8: when the transport answers the request of a call to `Do` with a status
code below 400 and `io.ReadAll` ends with an error, the call returns that error
and the zero result, whatever bytes were read before the error. -/
theorem Do_read_error {β R : Type} (d : Deps β R) (c : Client) (method path : String)
    (body : Option β) (headers : List (String × String)) (req : Request) (resp : Response)
    (soFar : Bytes) (err : GoError)
    (hsent : Event.roundTrip req ∈ (c.Do d method path body headers).log)
    (hresp : d.transport req = .ok resp) (hcode : resp.StatusCode < 400)
    (hread : (ReadAll resp.Body []).1 = (soFar, some err)) :
    (c.Do d method path body headers).err = some err ∧
    (c.Do d method path body headers).result = d.zero := by
  have hnot : ¬ resp.StatusCode ≥ 400 := by omega
  simp only [ReadAll, Prod.mk.injEq] at hread
  obtain ⟨_, hfail⟩ := hread
  rw [Do_of_sent d c method path body headers req hsent]
  unfold exchange
  rw [hresp]
  simp [hnot, hfail]

/-- C9: when the transport answers the request of a call to `Do` with a
response, the log of the call holds one `Close`, of the body of that response,
as its last event; the log is transport call, close when the status code is 400
or more, and transport call, read, close otherwise (read failure or success). -/
theorem Do_closes_body_once {β R : Type} (d : Deps β R) (c : Client) (method path : String)
    (body : Option β) (headers : List (String × String)) (req : Request) (resp : Response)
    (hsent : Event.roundTrip req ∈ (c.Do d method path body headers).log)
    (hresp : d.transport req = .ok resp) :
    ((c.Do d method path body headers).log.filter Event.isClose).length = 1 ∧
    (c.Do d method path body headers).log.getLast? = some (Event.close resp.Body) ∧
    (∀ b, Event.close b ∈ (c.Do d method path body headers).log → b = resp.Body) ∧
    (resp.StatusCode ≥ 400 →
      (c.Do d method path body headers).log = [Event.roundTrip req, Event.close resp.Body]) ∧
    (resp.StatusCode < 400 →
      (c.Do d method path body headers).log =
        [Event.roundTrip req, Event.readAll resp.Body, Event.close resp.Body]) := by
  rw [Do_of_sent d c method path body headers req hsent]
  unfold exchange
  rw [hresp]
  by_cases hc : resp.StatusCode ≥ 400
  · have hlt : ¬ resp.StatusCode < 400 := by omega
    simp [hc, hlt, Event.isClose]
  · have hlt : resp.StatusCode < 400 := by omega
    cases hf : resp.Body.fail <;> simp [hc, hlt, hf, Event.isClose]

/-! ## The request -/

/-- C3: `Get(path)` sends a request exactly when `http.NewRequest` accepts the
method `GET` and the URL, and `Delete(path)` exactly when it accepts `DELETE`
and the URL; the request sent has that method, the URL `BaseURL ++ path`, no
body, and as its only header `Authorization` with the one value
`"Bearer " ++ token` when the token is not empty, and no header at all when the
token is empty. -/
theorem Get_Delete_request {β R : Type} (d : Deps β R) (c : Client) (path : String) :
    (∀ req, Event.roundTrip req ∈ (c.Get d path).log ↔
      d.requestError "GET" (c.BaseURL ++ path) = none ∧
      req = { Method := "GET", URL := c.BaseURL ++ path,
              Header := ⟨if c.Token ≠ "" then [("Authorization", "Bearer " ++ c.Token)]
                         else []⟩,
              Body := none }) ∧
    (∀ req, Event.roundTrip req ∈ (c.Delete d path).log ↔
      d.requestError "DELETE" (c.BaseURL ++ path) = none ∧
      req = { Method := "DELETE", URL := c.BaseURL ++ path,
              Header := ⟨if c.Token ≠ "" then [("Authorization", "Bearer " ++ c.Token)]
                         else []⟩,
              Body := none }) ∧
    (∀ req, Event.roundTrip req ∈ (c.Get d path).log ∨
        Event.roundTrip req ∈ (c.Delete d path).log →
      req.Body = none ∧
      (req.Header.Values "Authorization" ≠ [] ↔ c.Token ≠ "") ∧
      (c.Token ≠ "" → req.Header.Values "Authorization" = ["Bearer " ++ c.Token]) ∧
      req.Header.entries =
        (if c.Token ≠ "" then [("Authorization", "Bearer " ++ c.Token)] else [])) := by
  have sent : ∀ (method : String) (req : Request), method ≠ "" →
      (Event.roundTrip req ∈ (c.Do d method path none []).log ↔
        d.requestError method (c.BaseURL ++ path) = none ∧
        req = { Method := method, URL := c.BaseURL ++ path,
                Header := ⟨if c.Token ≠ "" then [("Authorization", "Bearer " ++ c.Token)]
                           else []⟩,
                Body := none }) := by
    intro method req hne
    rw [sent_iff, prepare_none_iff d c method path [] req hne, sentEntries_nil]
  have facts : ∀ (method : String) (req : Request), method ≠ "" →
      Event.roundTrip req ∈ (c.Do d method path none []).log →
      req.Body = none ∧
      (req.Header.Values "Authorization" ≠ [] ↔ c.Token ≠ "") ∧
      (c.Token ≠ "" → req.Header.Values "Authorization" = ["Bearer " ++ c.Token]) ∧
      req.Header.entries =
        (if c.Token ≠ "" then [("Authorization", "Bearer " ++ c.Token)] else []) := by
    intro method req hne h
    obtain ⟨_, hreq⟩ := (sent method req hne).1 h
    have hv : req.Header.Values "Authorization" =
        (if c.Token ≠ "" then ["Bearer " ++ c.Token] else []) := by
      rw [hreq]
      by_cases ht : c.Token = ""
      · simp [ht, Header.Values, Header.index]
      · simp [ht, Header.Values, Header.index, canonical_authorization]
    refine ⟨by rw [hreq], ?_, ?_, by rw [hreq]⟩
    · rw [hv]
      by_cases ht : c.Token = "" <;> simp [ht]
    · intro ht
      rw [hv]
      simp [ht]
  refine ⟨fun req => sent "GET" req (by decide), fun req => sent "DELETE" req (by decide), ?_⟩
  intro req h
  rcases h with h | h
  · exact facts "GET" req (by decide) h
  · exact facts "DELETE" req (by decide) h

/-- C4: for a body value `v` that `json.Marshal` encodes to `b`, each of
`Post(path, v)`, `Put(path, v)` and `Patch(path, v)` sends a request exactly
when `http.NewRequest` accepts its verb and the URL; the request sent has the
verb of the helper (`POST`, `PUT`, `PATCH`), the URL `BaseURL ++ path`, the
body `b`, and the headers `Authorization` (when there is a token) and
`Content-Type` with the one value `application/json`. -/
theorem Post_Put_Patch_request {β R : Type} (d : Deps β R) (c : Client) (path : String)
    (v : β) (b : Bytes) (hm : d.Marshal (some v) = .ok b) :
    (∀ req, Event.roundTrip req ∈ (c.Post d path (some v)).log ↔
      d.requestError "POST" (c.BaseURL ++ path) = none ∧
      req = { Method := "POST", URL := c.BaseURL ++ path,
              Header := ⟨(if c.Token ≠ "" then [("Authorization", "Bearer " ++ c.Token)]
                          else []) ++ [("Content-Type", "application/json")]⟩,
              Body := some b }) ∧
    (∀ req, Event.roundTrip req ∈ (c.Put d path (some v)).log ↔
      d.requestError "PUT" (c.BaseURL ++ path) = none ∧
      req = { Method := "PUT", URL := c.BaseURL ++ path,
              Header := ⟨(if c.Token ≠ "" then [("Authorization", "Bearer " ++ c.Token)]
                          else []) ++ [("Content-Type", "application/json")]⟩,
              Body := some b }) ∧
    (∀ req, Event.roundTrip req ∈ (c.Patch d path (some v)).log ↔
      d.requestError "PATCH" (c.BaseURL ++ path) = none ∧
      req = { Method := "PATCH", URL := c.BaseURL ++ path,
              Header := ⟨(if c.Token ≠ "" then [("Authorization", "Bearer " ++ c.Token)]
                          else []) ++ [("Content-Type", "application/json")]⟩,
              Body := some b }) ∧
    (∀ req, Event.roundTrip req ∈ (c.Post d path (some v)).log ∨
        Event.roundTrip req ∈ (c.Put d path (some v)).log ∨
        Event.roundTrip req ∈ (c.Patch d path (some v)).log →
      req.Body = some b ∧
      req.Header.Values "Content-Type" = ["application/json"] ∧
      req.Header.Get "Content-Type" = "application/json") := by
  have sent : ∀ (method : String) (req : Request), method ≠ "" →
      (Event.roundTrip req ∈
          (c.Do d method path (some v) [("Content-Type", "application/json")]).log ↔
        d.requestError method (c.BaseURL ++ path) = none ∧
        req = { Method := method, URL := c.BaseURL ++ path,
                Header := ⟨(if c.Token ≠ "" then [("Authorization", "Bearer " ++ c.Token)]
                            else []) ++ [("Content-Type", "application/json")]⟩,
                Body := some b }) := by
    intro method req hne
    rw [sent_iff,
      prepare_some_iff d c method path v b [("Content-Type", "application/json")] req hne hm,
      sentEntries_json]
  have facts : ∀ (method : String) (req : Request), method ≠ "" →
      Event.roundTrip req ∈
        (c.Do d method path (some v) [("Content-Type", "application/json")]).log →
      req.Body = some b ∧
      req.Header.Values "Content-Type" = ["application/json"] ∧
      req.Header.Get "Content-Type" = "application/json" := by
    intro method req hne h
    obtain ⟨_, hreq⟩ := (sent method req hne).1 h
    have hv : req.Header.Values "Content-Type" = ["application/json"] := by
      rw [hreq]
      by_cases ht : c.Token = ""
      · simp [ht, Header.Values, Header.index, canonical_content_type]
      · simp [ht, Header.Values, Header.index, canonical_content_type]
    refine ⟨by rw [hreq], hv, ?_⟩
    unfold Header.Get
    rw [hv]
    rfl
  refine ⟨fun req => sent "POST" req (by decide), fun req => sent "PUT" req (by decide),
    fun req => sent "PATCH" req (by decide), ?_⟩
  intro req h
  rcases h with h | h | h
  · exact facts "POST" req (by decide) h
  · exact facts "PUT" req (by decide) h
  · exact facts "PATCH" req (by decide) h

/-- C5, amended: a request sent through `Do` has under `Content-Type` exactly
the values the caller gave under keys whose canonical form is `Content-Type`,
in the order of the caller's entries: `Do` adds none of its own, so
`application/json` is there exactly when the caller supplied it. -/
theorem Do_content_type {β R : Type} (d : Deps β R) (c : Client) (method path : String)
    (body : Option β) (headers : List (String × String)) (req : Request)
    (hsent : Event.roundTrip req ∈ (c.Do d method path body headers).log) :
    req.Header.Values "Content-Type" =
      (headers.filter (fun kv => CanonicalMIMEHeaderKey kv.1 = "Content-Type")).map Prod.snd ∧
    ("application/json" ∈ req.Header.Values "Content-Type" ↔
      ∃ k, CanonicalMIMEHeaderKey k = "Content-Type" ∧ (k, "application/json") ∈ headers) ∧
    ((∀ kv ∈ headers, CanonicalMIMEHeaderKey kv.1 ≠ "Content-Type") →
      req.Header.Values "Content-Type" = []) := by
  have hp := (sent_iff d c method path body headers req).1 hsent
  obtain ⟨_, _, hent, _, _⟩ := prepare_ok d c method path body headers req hp
  have hv : req.Header.Values "Content-Type" =
      (headers.filter (fun kv => CanonicalMIMEHeaderKey kv.1 = "Content-Type")).map
        Prod.snd := by
    have h := sentEntries_values c headers "Content-Type"
    rw [← hent] at h
    rw [h, canonical_authorization, canonical_content_type]
    simp
  refine ⟨hv, ?_, ?_⟩
  · rw [hv]
    simp only [List.mem_map, List.mem_filter, decide_eq_true_eq]
    constructor
    · rintro ⟨⟨k, v⟩, ⟨hmem, hk⟩, hval⟩
      simp only at hval hk
      subst hval
      exact ⟨k, hk, hmem⟩
    · rintro ⟨k, hk, hmem⟩
      exact ⟨(k, "application/json"), ⟨hmem, hk⟩, rfl⟩
  · intro hall
    rw [hv]
    simp only [List.map_eq_nil_iff, List.filter_eq_nil_iff, decide_eq_true_eq]
    exact hall

/-- C5, as stated, fails: `Do("POST", "/test", true, nil)` sends a request with
a body and without `Content-Type` header. -/
theorem Do_no_content_type_counterexample :
    ¬ (∀ req : Request,
        Event.roundTrip req ∈
          (testClient.Do (mockDeps (.ok okResponse)) "POST" "/test"
            (some (GoValue.bool true)) []).log →
        req.Body ≠ none →
        "application/json" ∈ req.Header.Values "Content-Type") := by
  intro h
  have h1 := h { testPostRequest with Header := ⟨[("Authorization", "Bearer test_token")]⟩ }
    (by decide) (by decide)
  exact absurd h1 (by decide)

/-- C10: in a request sent through `Do` by a client with a token, the bearer
value is the first header entry and the caller's entries follow it, each under
the canonical form of its key and in the caller's order; so the values of
`Authorization` are the bearer value followed by the caller's values for that
key, none replaced and none dropped, and the values of any other key are the
caller's values for it. -/
theorem Do_bearer_first {β R : Type} (d : Deps β R) (c : Client) (method path : String)
    (body : Option β) (headers : List (String × String)) (req : Request)
    (htoken : c.Token ≠ "")
    (hsent : Event.roundTrip req ∈ (c.Do d method path body headers).log) :
    req.Header.entries =
      ("Authorization", "Bearer " ++ c.Token) ::
        headers.map (fun kv => (CanonicalMIMEHeaderKey kv.1, kv.2)) ∧
    req.Header.Values "Authorization" =
      ("Bearer " ++ c.Token) ::
        (headers.filter (fun kv => CanonicalMIMEHeaderKey kv.1 = "Authorization")).map
          Prod.snd ∧
    (∀ k v, (k, v) ∈ headers → CanonicalMIMEHeaderKey k = "Authorization" →
      (req.Header.Values "Authorization").head? = some ("Bearer " ++ c.Token) ∧
      v ∈ (req.Header.Values "Authorization").tail) ∧
    (∀ key, CanonicalMIMEHeaderKey key ≠ "Authorization" →
      req.Header.Values key =
        (headers.filter
          (fun kv => CanonicalMIMEHeaderKey kv.1 = CanonicalMIMEHeaderKey key)).map
          Prod.snd) := by
  have hp := (sent_iff d c method path body headers req).1 hsent
  obtain ⟨_, _, hent, _, _⟩ := prepare_ok d c method path body headers req hp
  have hvals := fun key => sentEntries_values c headers key
  rw [← hent] at hvals
  have hauth : req.Header.Values "Authorization" =
      ("Bearer " ++ c.Token) ::
        (headers.filter (fun kv => CanonicalMIMEHeaderKey kv.1 = "Authorization")).map
          Prod.snd := by
    rw [hvals, canonical_authorization]
    simp [htoken]
  refine ⟨?_, hauth, ?_, ?_⟩
  · rw [hent]
    unfold sentEntries
    simp [htoken, canonical_authorization]
  · intro k v hmem hk
    rw [hauth]
    refine ⟨rfl, ?_⟩
    simp only [List.tail_cons, List.mem_map, List.mem_filter, decide_eq_true_eq]
    exact ⟨(k, v), ⟨hmem, hk⟩, rfl⟩
  · intro key hkey
    rw [hvals, canonical_authorization]
    have hne : ¬ (c.Token ≠ "" ∧ "Authorization" = CanonicalMIMEHeaderKey key) := by
      intro h
      exact hkey h.2.symm
    simp [hne]

/-! ## The theorems at the inputs of the tests -/

/-- The call `Get("/test")` answered by 200 with the body `{"a":1}`: no error, and the
result is the parse of these seven bytes. -/
theorem Do_success_witness :
    Event.roundTrip testGetRequest ∈
      (testClient.Do (mockDeps (.ok okResponse)) "GET" "/test" none []).log ∧
    (ReadAll okResponse.Body []).1 = ([123, 34, 97, 34, 58, 49, 125], none) ∧
    (testClient.Do (mockDeps (.ok okResponse)) "GET" "/test" none []).err = none ∧
    (testClient.Do (mockDeps (.ok okResponse)) "GET" "/test" none []).result =
      (mockDeps (.ok okResponse)).ParseBytes [123, 34, 97, 34, 58, 49, 125] :=
  ⟨by decide, rfl,
    Do_success (mockDeps (.ok okResponse)) testClient "GET" "/test" none [] testGetRequest
      okResponse [123, 34, 97, 34, 58, 49, 125] (by decide) rfl (by decide) (by decide) rfl⟩

/-- The call `Post("/test", ch)` with a channel as body: the encoding error comes back
and nothing is sent. -/
theorem Do_marshal_error_witness :
    (mockDeps (.ok okResponse)).Marshal (some GoValue.chan) =
      .error (.foreign "json" "json: unsupported type: chan int") ∧
    (testClient.Do (mockDeps (.ok okResponse)) "POST" "/test" (some GoValue.chan)
      [("Content-Type", "application/json")]).err =
      some (.foreign "json" "json: unsupported type: chan int") ∧
    (testClient.Do (mockDeps (.ok okResponse)) "POST" "/test" (some GoValue.chan)
      [("Content-Type", "application/json")]).log = [] :=
  have h := Do_marshal_error (mockDeps (.ok okResponse)) testClient "POST" "/test" GoValue.chan
    [("Content-Type", "application/json")] (.foreign "json" "json: unsupported type: chan int")
    rfl
  ⟨rfl, h.1, h.2.2.1⟩

/-- The call `Get("/test")` with a transport that fails: the error of the transport
comes back after one transport call. -/
theorem Do_transport_error_witness :
    Event.roundTrip testGetRequest ∈
      (testClient.Do (mockDeps (.error (errorsNew "fail"))) "GET" "/test" none []).log ∧
    (testClient.Do (mockDeps (.error (errorsNew "fail"))) "GET" "/test" none []).err =
      some (errorsNew "fail") ∧
    (testClient.Do (mockDeps (.error (errorsNew "fail"))) "GET" "/test" none []).log =
      [Event.roundTrip testGetRequest] :=
  have h := Do_transport_error (mockDeps (.error (errorsNew "fail"))) testClient "GET" "/test"
    none [] testGetRequest (errorsNew "fail") (by decide) rfl
  ⟨by decide, h.1, h.2.2.1⟩

/-- The call `Get("/test")` answered by 200 with the failing reader of the tests: the
read error comes back with the zero result. -/
theorem Do_read_error_witness :
    Event.roundTrip testGetRequest ∈
      (testClient.Do (mockDeps (.ok errReaderResponse)) "GET" "/test" none []).log ∧
    errReaderResponse.StatusCode < 400 ∧
    (ReadAll errReaderResponse.Body []).1 = ([], some (errorsNew "fail")) ∧
    (testClient.Do (mockDeps (.ok errReaderResponse)) "GET" "/test" none []).err =
      some (errorsNew "fail") ∧
    (testClient.Do (mockDeps (.ok errReaderResponse)) "GET" "/test" none []).result = [] :=
  have h := Do_read_error (mockDeps (.ok errReaderResponse)) testClient "GET" "/test" none []
    testGetRequest errReaderResponse [] (errorsNew "fail") (by decide) rfl (by decide) rfl
  ⟨by decide, by decide, rfl, h.1, h.2⟩

/-- The call `Post("/test", true)` answered by 200: the body is closed once, last. -/
theorem Do_closes_body_once_witness :
    Event.roundTrip testPostRequest ∈
      (testClient.Do (mockDeps (.ok okResponse)) "POST" "/test" (some (GoValue.bool true))
        [("Content-Type", "application/json")]).log ∧
    ((testClient.Do (mockDeps (.ok okResponse)) "POST" "/test" (some (GoValue.bool true))
        [("Content-Type", "application/json")]).log.filter Event.isClose).length = 1 ∧
    (testClient.Do (mockDeps (.ok okResponse)) "POST" "/test" (some (GoValue.bool true))
        [("Content-Type", "application/json")]).log.getLast? =
      some (Event.close okResponse.Body) :=
  have h := Do_closes_body_once (mockDeps (.ok okResponse)) testClient "POST" "/test"
    (some (GoValue.bool true)) [("Content-Type", "application/json")] testPostRequest okResponse
    (by decide) rfl
  ⟨by decide, h.1, h.2.1⟩

/-- The calls `Get("/test")` and `Delete("/test")`, of the test client and of
the client without token: each sends its request, with the bearer header for
the first client and without any header for the second. -/
theorem Get_Delete_request_witness :
    Event.roundTrip testGetRequest ∈ (testClient.Get (mockDeps (.ok okResponse)) "/test").log ∧
    Event.roundTrip { testGetRequest with Header := ⟨[]⟩ } ∈
      (anonClient.Get (mockDeps (.ok okResponse)) "/test").log ∧
    Event.roundTrip { testGetRequest with Method := "DELETE" } ∈
      (testClient.Delete (mockDeps (.ok okResponse)) "/test").log ∧
    Event.roundTrip { testGetRequest with Method := "DELETE", Header := ⟨[]⟩ } ∈
      (anonClient.Delete (mockDeps (.ok okResponse)) "/test").log ∧
    testGetRequest.Body = none ∧
    testGetRequest.Header.Values "Authorization" = ["Bearer " ++ testClient.Token] ∧
    ¬ (({ testGetRequest with Header := ⟨[]⟩ } : Request).Header.Values "Authorization" ≠ []) :=
  have ht := Get_Delete_request (mockDeps (.ok okResponse)) testClient "/test"
  have ha := Get_Delete_request (mockDeps (.ok okResponse)) anonClient "/test"
  have hget : Event.roundTrip testGetRequest ∈
      (testClient.Get (mockDeps (.ok okResponse)) "/test").log :=
    (ht.1 testGetRequest).2 ⟨by decide, by decide⟩
  have hanon : Event.roundTrip { testGetRequest with Header := ⟨[]⟩ } ∈
      (anonClient.Get (mockDeps (.ok okResponse)) "/test").log :=
    (ha.1 { testGetRequest with Header := ⟨[]⟩ }).2 ⟨by decide, by decide⟩
  ⟨hget, hanon,
    (ht.2.1 { testGetRequest with Method := "DELETE" }).2 ⟨by decide, by decide⟩,
    (ha.2.1 { testGetRequest with Method := "DELETE", Header := ⟨[]⟩ }).2
      ⟨by decide, by decide⟩,
    (ht.2.2 testGetRequest (Or.inl hget)).1,
    (ht.2.2 testGetRequest (Or.inl hget)).2.2.1 (by decide),
    fun h => ((ha.2.2 { testGetRequest with Header := ⟨[]⟩ } (Or.inl hanon)).2.1.1 h) rfl⟩

/-- The calls `Post("/test", true)`, `Put("/test", true)` and
`Patch("/test", true)` of the test client: each sends its request, with its own
verb, the body `true` and the content type. -/
theorem Post_Put_Patch_request_witness :
    (mockDeps (.ok okResponse)).Marshal (some (GoValue.bool true)) = .ok [116, 114, 117, 101] ∧
    Event.roundTrip testPostRequest ∈
      (testClient.Post (mockDeps (.ok okResponse)) "/test" (some (GoValue.bool true))).log ∧
    Event.roundTrip { testPostRequest with Method := "PUT" } ∈
      (testClient.Put (mockDeps (.ok okResponse)) "/test" (some (GoValue.bool true))).log ∧
    Event.roundTrip { testPostRequest with Method := "PATCH" } ∈
      (testClient.Patch (mockDeps (.ok okResponse)) "/test" (some (GoValue.bool true))).log ∧
    testPostRequest.Body = some [116, 114, 117, 101] ∧
    testPostRequest.Header.Values "Content-Type" = ["application/json"] :=
  have h := Post_Put_Patch_request (mockDeps (.ok okResponse)) testClient "/test"
    (GoValue.bool true) [116, 114, 117, 101] rfl
  have hpost : Event.roundTrip testPostRequest ∈
      (testClient.Post (mockDeps (.ok okResponse)) "/test" (some (GoValue.bool true))).log :=
    (h.1 testPostRequest).2 ⟨by decide, by decide⟩
  ⟨rfl, hpost,
    (h.2.1 { testPostRequest with Method := "PUT" }).2 ⟨by decide, by decide⟩,
    (h.2.2.1 { testPostRequest with Method := "PATCH" }).2 ⟨by decide, by decide⟩,
    (h.2.2.2 testPostRequest (Or.inl hpost)).1,
    (h.2.2.2 testPostRequest (Or.inl hpost)).2.1⟩

/-- The call `Do("PUT", "/test", true, {"content-type": "text/plain"})`: the one
`Content-Type` value of the request is the caller's. -/
theorem Do_content_type_witness :
    Event.roundTrip
        { Method := "PUT", URL := "https://10.0.0.1/test",
          Header := ⟨[("Authorization", "Bearer test_token"), ("Content-Type", "text/plain")]⟩,
          Body := some [116, 114, 117, 101] } ∈
      (testClient.Do (mockDeps (.ok okResponse)) "PUT" "/test" (some (GoValue.bool true))
        [("content-type", "text/plain")]).log ∧
    Header.Values ⟨[("Authorization", "Bearer test_token"), ("Content-Type", "text/plain")]⟩
        "Content-Type" =
      ([("content-type", "text/plain")].filter
        (fun kv => CanonicalMIMEHeaderKey kv.1 = "Content-Type")).map Prod.snd :=
  ⟨by decide,
    (Do_content_type (mockDeps (.ok okResponse)) testClient "PUT" "/test"
      (some (GoValue.bool true)) [("content-type", "text/plain")]
      { Method := "PUT", URL := "https://10.0.0.1/test",
        Header := ⟨[("Authorization", "Bearer test_token"), ("Content-Type", "text/plain")]⟩,
        Body := some [116, 114, 117, 101] } (by decide)).1⟩

/-- The call `Do("GET", "/test", nil, {"authorization": "Basic abc"})` of the test
client: the bearer value stays first and the caller's value follows it. -/
theorem Do_bearer_first_witness :
    testClient.Token ≠ "" ∧
    Event.roundTrip
        { testGetRequest with
          Header := ⟨[("Authorization", "Bearer test_token"), ("Authorization", "Basic abc")]⟩ } ∈
      (testClient.Do (mockDeps (.ok okResponse)) "GET" "/test" none
        [("authorization", "Basic abc")]).log ∧
    Header.Values ⟨[("Authorization", "Bearer test_token"), ("Authorization", "Basic abc")]⟩
        "Authorization" =
      ("Bearer " ++ testClient.Token) ::
        ([("authorization", "Basic abc")].filter
          (fun kv => CanonicalMIMEHeaderKey kv.1 = "Authorization")).map Prod.snd :=
  ⟨by decide, by decide,
    (Do_bearer_first (mockDeps (.ok okResponse)) testClient "GET" "/test" none
      [("authorization", "Basic abc")]
      { testGetRequest with
        Header := ⟨[("Authorization", "Bearer test_token"), ("Authorization", "Basic abc")]⟩ }
      (by decide) (by decide)).2.1⟩

end GoClient
